import Mathlib

/-!
Verification development for the gomemcache memcached client.

The Go sources are shallowly embedded below.  Conventions used throughout:

* Go `time.Time` values are modelled as integers (`Int`); `a.After(b)` is `b < a`.
* Go byte strings (`string` / `[]byte`) are modelled as Lean `String`s whose
  characters stand for bytes, or as `List Nat` where individual wire bytes
  matter; lengths agree on the ASCII data the protocols exchange.
* `net.Conn` handles are abstract tokens (`Nat`); closing a connection and
  setting a socket deadline are modelled as infallible (their error paths in
  the Go code only propagate transport failures which the claims do not touch).
* Go maps are modelled as association lists where assignment replaces the
  previous binding of the key.
* The goroutine fan-out of a multi-shard fetch is modelled by sequentially
  folding the per-shard outcomes, which is a linearisation of the merge loop
  each goroutine body performs.
-/

namespace Gomemcache

/-- Item stored in the memcache server (`Item` in the Go source: Key, Value,
Expiration, Flags, CAS). -/
structure Item where
  key : String
  value : String
  expiration : Nat
  flags : Nat
  cas : Nat
deriving DecidableEq, Repr

/-- Operation descriptor (`operation` in the Go source). -/
structure Operation where
  opcode : Nat
  command : String
  quiet : Bool
  withKey : Bool
deriving DecidableEq, Repr

/-- The static `operations` table from the Go source, mapping a command name to
its wire behaviour.  Map lookup with the comma-ok idiom is `Option`. -/
def operations (name : String) : Option Operation :=
  match name with
  | "get" => some { opcode := 0x00, command := "get", quiet := false, withKey := false }
  | "set" => some { opcode := 0x01, command := "set", quiet := false, withKey := false }
  | "add" => some { opcode := 0x02, command := "add", quiet := false, withKey := false }
  | "replace" => some { opcode := 0x03, command := "replace", quiet := false, withKey := false }
  | "delete" => some { opcode := 0x04, command := "delete", quiet := false, withKey := false }
  | "increment" => some { opcode := 0x05, command := "incr", quiet := false, withKey := false }
  | "decrement" => some { opcode := 0x06, command := "decr", quiet := false, withKey := false }
  | "quit" => some { opcode := 0x07, command := "quit", quiet := false, withKey := false }
  | "flush" => some { opcode := 0x08, command := "flush", quiet := false, withKey := false }
  | "getq" => some { opcode := 0x09, command := "get", quiet := true, withKey := false }
  | "noop" => some { opcode := 0x0a, command := "noop", quiet := false, withKey := false }
  | "version" => some { opcode := 0x0b, command := "version", quiet := false, withKey := false }
  | "getk" => some { opcode := 0x0c, command := "get", quiet := false, withKey := true }
  | "getkq" => some { opcode := 0x0d, command := "get", quiet := true, withKey := false }
  | "append" => some { opcode := 0x0e, command := "append", quiet := false, withKey := false }
  | "prepend" => some { opcode := 0x0f, command := "prepend", quiet := false, withKey := false }
  | "stat" => some { opcode := 0x10, command := "stat", quiet := false, withKey := false }
  | "setq" => some { opcode := 0x11, command := "set", quiet := true, withKey := false }
  | "addq" => some { opcode := 0x12, command := "add", quiet := true, withKey := false }
  | "replaceq" => some { opcode := 0x13, command := "replace", quiet := true, withKey := false }
  | "deleteq" => some { opcode := 0x14, command := "delete", quiet := true, withKey := false }
  | "incrementq" => some { opcode := 0x15, command := "incr", quiet := true, withKey := false }
  | "decrementq" => some { opcode := 0x16, command := "decr", quiet := true, withKey := false }
  | "quitq" => some { opcode := 0x17, command := "quit", quiet := true, withKey := false }
  | "flushq" => some { opcode := 0x18, command := "flush", quiet := true, withKey := false }
  | "appendq" => some { opcode := 0x19, command := "append", quiet := true, withKey := false }
  | "prependq" => some { opcode := 0x1a, command := "prepend", quiet := true, withKey := false }
  | "cas" => some { opcode := 0x01, command := "cas", quiet := false, withKey := false }
  | _ => none

/-- Direct map access `operations[name]` (a missing key yields the zero value
of `operation`, as in Go). -/
def operationsGet (name : String) : Operation :=
  (operations name).getD { opcode := 0, command := "", quiet := false, withKey := false }

/-- `isStoreOperation` from the Go source. -/
def isStoreOperation (op : Operation) : Bool :=
  op.command == "set" || op.command == "add" || op.command == "replace" || op.command == "cas"

/-! ## Connection pool (`pool.go`, revision with MaxActiveConns and SetError) -/

/-- `idleConn`: a pooled connection together with its recorded transport error
(`err`, set by `SetError`, queried by `CheckError`) and the time it went idle. -/
structure IdleConn where
  conn : Nat
  err : Bool
  idleAt : Int
deriving DecidableEq, Repr

/-- The connection pool state (`Pool` in the Go source). -/
structure Pool where
  maxIdleConns : Int
  maxActiveConns : Int
  idleTimeout : Int
  socketTimeout : Int
  closed : Bool
  idleConns : List IdleConn
  activeConns : Int
deriving DecidableEq, Repr

/-- Errors returned by the pool. -/
inductive PoolErr where
  | poolClosed
  | poolExhausted
deriving DecidableEq, Repr

/-- `Pool.Get`.  Returns the updated pool, the connection handed out, and the
list of expired idle connections that were closed during the scan.  Following
the Go code: a closed pool fails; `activeConns > MaxActiveConns` fails with
`ErrPoolExhausted`; otherwise the idle list is scanned from the front closing
every entry not strictly newer than `now - IdleTimeout` until the first fresh
entry; if nothing remains a new connection (`freshConn`) is dialed, else the
last (most recently idled) remaining entry is handed out.  `conn.Close` and
`SetDeadline` failures are not modelled. -/
def Pool.get (pool : Pool) (now : Int) (freshConn : Nat) :
    Except PoolErr (Pool × IdleConn × List IdleConn) :=
  if pool.closed then .error .poolClosed
  else if pool.maxActiveConns < pool.activeConns then .error .poolExhausted
  else
    let expiredSince := now - pool.idleTimeout
    let expired := pool.idleConns.takeWhile (fun ic => decide (ic.idleAt ≤ expiredSince))
    let remaining := pool.idleConns.dropWhile (fun ic => decide (ic.idleAt ≤ expiredSince))
    if hk : remaining = [] then
      .ok ({ pool with idleConns := [], activeConns := pool.activeConns + 1 },
           { conn := freshConn, err := false, idleAt := 0 }, expired)
    else
      .ok ({ pool with idleConns := remaining.dropLast, activeConns := pool.activeConns + 1 },
           remaining.getLast hk, expired)

/-- `Pool.Put`.  Returns the updated pool and whether the connection was closed
and discarded (`true`) rather than appended to the idle list (`false`). -/
def Pool.put (pool : Pool) (ic : IdleConn) (now : Int) : Pool × Bool :=
  let pool' := { pool with activeConns := pool.activeConns - 1 }
  if pool'.closed ∨ pool'.maxIdleConns ≤ (pool'.idleConns.length : Int) ∨ ic.err then
    (pool', true)
  else
    ({ pool' with idleConns := pool'.idleConns ++ [{ ic with idleAt := now }] }, false)

/-! ## Text protocol codec (`text_protocol.go`, revision with delimiter constants) -/

/-- Client-level errors (the named error values of the Go source plus the
transport failures the claims mention). -/
inductive ClientErr where
  | invalidKey
  | operationNotSupported
  | itemNotFound
  | itemExists
  | itemNotStored
  | undefinedResponse
  | transport
deriving DecidableEq, Repr

/-- `TextProtocol.store`, request-construction part: the exact bytes appended
to `buf` before the connection is written.  `none` models
`ErrOperationNotSupported` for an unknown command name. -/
def TextProtocol.storeRequest (cmd : String) (item : Item) : Option String :=
  match operations cmd with
  | none => none
  | some op =>
    let isStored := isStoreOperation op
    let buf := op.command ++ " " ++ item.key ++ " "
    let buf :=
      if isStored then
        let buf := buf ++ toString item.flags ++ " " ++ toString item.expiration ++ " "
          ++ toString item.value.length ++ " "
        if op.command = "cas" then buf ++ toString item.cas ++ " " else buf
      else if op.command = "incr" ∨ op.command = "decr" then
        buf ++ toString item.value.length ++ " "
      else buf
    let buf := if op.quiet then buf ++ "noreply" else buf
    let buf := buf ++ "\r\n"
    let buf := if isStored then buf ++ item.value ++ "\r\n" else buf
    some buf

/-- `TextProtocol.checkError`: classification of the status line read back from
the server after a non-quiet store-class command. -/
def TextProtocol.checkError (buf : String) : Except ClientErr Unit :=
  if buf = "STORED\r\n" then .ok ()
  else if buf = "NOT_STORED\r\n" then .error .itemNotStored
  else if buf = "EXISTS\r\n" then .error .itemExists
  else if buf = "NOT_FOUND\r\n" then .error .itemNotFound
  else if buf = "DELETED\r\n" then .ok ()
  else .error .undefinedResponse

/-- `TextProtocol.store`, control part: after the request bytes
(`TextProtocol.storeRequest`) are written (the write is modelled as
succeeding), a quiet operation returns success immediately without reading
anything; otherwise the first pending response line is read and classified.
`responses` is the stream of status lines the server would deliver. -/
def TextProtocol.store (cmd : String) (item : Item) (responses : List String) :
    Except ClientErr Unit :=
  match operations cmd with
  | none => .error .operationNotSupported
  | some op =>
    let _request := TextProtocol.storeRequest cmd item
    if op.quiet then .ok ()
    else
      match responses with
      | [] => .error .transport
      | r :: _ => TextProtocol.checkError r

/-! ## Client facade (`memcache.go` revision with sharded baseProtocol) -/

/-- `invalidKey` from the Go source.  Despite its name it returns `true` when
the key is VALID: at most 250 bytes, every byte strictly greater than the
space character and at most `0x7f`. -/
def invalidKey (key : String) : Bool :=
  if key.length > 250 then false
  else key.data.all (fun c => !(decide (c.toNat ≤ 32) || decide (127 < c.toNat)))

/-- What an operation hands to the active protocol after validation: a store
with a chosen command name, a fetch with a key list, or no network call at
all. -/
inductive Dispatch where
  | store (cmd : String) (item : Item)
  | fetch (keys : List String) (withCAS : Bool)
  | noFetch
deriving DecidableEq, Repr

/-- The client facade state (`Client` in the Go source; the server list is
irrelevant to the claims and omitted, `protocol` records which codec
`SetProtocol` installed). -/
structure Client where
  noreply : Bool
  protocol : String
deriving DecidableEq, Repr

/-- `NewClient`: noreply defaults to `true` and `SetProtocol("text")` is
called. -/
def newClient : Client :=
  { noreply := true, protocol := "text" }

/-- `Client.Set`: validate, then choose `setq`/`set` by the noreply flag. -/
def Client.set (c : Client) (item : Item) : Except ClientErr Dispatch :=
  if !(invalidKey item.key) then .error .invalidKey
  else .ok (.store (if c.noreply then "setq" else "set") item)

/-- `Client.Add`. -/
def Client.add (_c : Client) (item : Item) : Except ClientErr Dispatch :=
  if !(invalidKey item.key) then .error .invalidKey
  else .ok (.store "add" item)

/-- `Client.CAS`. -/
def Client.cas (_c : Client) (item : Item) : Except ClientErr Dispatch :=
  if !(invalidKey item.key) then .error .invalidKey
  else .ok (.store "cas" item)

/-- `Client.Replace`. -/
def Client.replace (_c : Client) (item : Item) : Except ClientErr Dispatch :=
  if !(invalidKey item.key) then .error .invalidKey
  else .ok (.store "replace" item)

/-- `Client.Get`. -/
def Client.get (_c : Client) (key : String) : Except ClientErr Dispatch :=
  if !(invalidKey key) then .error .invalidKey
  else .ok (.fetch [key] false)

/-- `Client.Gets`. -/
def Client.gets (_c : Client) (key : String) : Except ClientErr Dispatch :=
  if !(invalidKey key) then .error .invalidKey
  else .ok (.fetch [key] true)

/-- `Client.Delete`: validate, then choose `deleteq`/`delete` by the noreply
flag; the dispatched item holds only the key. -/
def Client.delete (c : Client) (key : String) : Except ClientErr Dispatch :=
  if !(invalidKey key) then .error .invalidKey
  else .ok (.store (if c.noreply then "deleteq" else "delete")
      { key := key, value := "", expiration := 0, flags := 0, cas := 0 })

/-- The de-duplication loop of `Client.MultiGet`: each key not already
collected is validated and appended (first occurrence wins). -/
def multiGetDedup (ks : List String) : List String → Except ClientErr (List String)
  | [] => .ok ks
  | key :: rest =>
    if key ∈ ks then multiGetDedup ks rest
    else if !(invalidKey key) then .error .invalidKey
    else multiGetDedup (ks ++ [key]) rest

/-- `Client.MultiGet`: de-duplicate and validate; an empty de-duplicated list
returns without any fetch, otherwise the de-duplicated keys are fetched. -/
def Client.multiGet (_c : Client) (keys : List String) : Except ClientErr Dispatch :=
  match multiGetDedup [] keys with
  | .error e => .error e
  | .ok ks => if ks.length = 0 then .ok .noFetch else .ok (.fetch ks false)

/-- Modelled from the spec: a key the facade must reject — longer than 250
bytes, or containing a byte at most the ASCII space (0x20) or above 0x7f. -/
def specBadKey (key : String) : Prop :=
  250 < key.length ∨ ∃ c ∈ key.data, c.toNat ≤ 32 ∨ 127 < c.toNat

/-- Modelled from the spec: first-occurrence-wins de-duplication of a key
list. -/
def specDedupFirstOccurrence (keys : List String) : List String :=
  keys.foldl (fun acc k => if k ∈ acc then acc else acc ++ [k]) []

/-! ## Binary protocol codec (`binary_protocol.go`, revision with fetchFromServer) -/

/-- Big-endian encoding of `n` into `width` bytes (the `binary.BigEndian.Put*`
family; values wider than the field are truncated as the Go integer casts
do). -/
def beBytes : Nat → Nat → List Nat
  | 0, _ => []
  | w + 1, n => beBytes w (n / 256) ++ [n % 256]

/-- `binary.BigEndian.PutUint16`. -/
def u16be (n : Nat) : List Nat := beBytes 2 n

/-- `binary.BigEndian.PutUint32`. -/
def u32be (n : Nat) : List Nat := beBytes 4 n

/-- `binary.BigEndian.PutUint64`. -/
def u64be (n : Nat) : List Nat := beBytes 8 n

/-- `binary.BigEndian.Uint32` over the first four bytes of a buffer. -/
def u32beRead (l : List Nat) : Nat :=
  l.getD 0 0 * 16777216 + l.getD 1 0 * 65536 + l.getD 2 0 * 256 + l.getD 3 0

/-- The fixed 24-byte request/response header (`header` in the Go source).
Field values are the already-truncated machine integers the Go struct holds. -/
structure Header where
  magic : Nat
  opcode : Nat
  keyLength : Nat
  extrasLength : Nat
  dataType : Nat
  status : Nat
  bodyLength : Nat
  opq : Nat
  cas : Nat
deriving DecidableEq, Repr

/-- `header.write`: the 24 bytes of the header, big-endian. -/
def headerBytes (h : Header) : List Nat :=
  [h.magic % 256, h.opcode % 256] ++ u16be h.keyLength
    ++ [h.extrasLength % 256, h.dataType % 256] ++ u16be h.status
    ++ u32be h.bodyLength ++ u32be h.opq ++ u64be h.cas

/-- A request packet (`packet` in the Go source); `key` and `value` are byte
strings, `extras` raw bytes. -/
structure Packet where
  header : Header
  extras : List Nat
  key : String
  value : String
deriving DecidableEq, Repr

/-- The bytes of a string, one per character. -/
def strBytes (s : String) : List Nat :=
  s.data.map Char.toNat

/-- `packet.write`: header bytes, then extras, then key, then value. -/
def pktWrite (pkt : Packet) : List Nat :=
  headerBytes pkt.header ++ pkt.extras ++ strBytes pkt.key ++ strBytes pkt.value

/-- One get-class request packet of the binary multi-get
(`BinaryProtocol.fetchFromServer` request loop body): magic 0x80, the
operation's opcode, `keyLength` the key length as uint16, `bodyLength` the key
length as uint32, no extras, no value. -/
def mkGetPacket (op : Operation) (key : String) : Packet :=
  { header := { magic := 128, opcode := op.opcode, keyLength := key.length % 65536,
                extrasLength := 0, dataType := 0, status := 0,
                bodyLength := key.length % 4294967296, opq := 0, cas := 0 },
    extras := [], key := key, value := "" }

/-- The pipelined request sequence of `BinaryProtocol.fetchFromServer`: every
key but the last becomes a `getkq` packet, the last a `getk` packet. -/
def BinaryProtocol.fetchPackets : List String → List Packet
  | [] => []
  | [key] => [mkGetPacket (operationsGet ("getk")) key]
  | key :: rest => mkGetPacket (operationsGet ("getkq")) key :: BinaryProtocol.fetchPackets rest

/-- Binary-protocol errors: the `errorMap` entries named by the claims, the
remaining mapped statuses (`serverErr`), unmapped statuses (`statusCodeErr`),
and the model's transport/argument errors. -/
inductive BinErr where
  | itemNotFound
  | itemExists
  | itemNotStored
  | serverErr (code : Nat)
  | statusCodeErr (code : Nat)
  | transportRead
  | opNotSupported
  | invalidArguments
deriving DecidableEq, Repr

/-- The error a non-zero response status maps to (`errorMap` lookup followed
by the generic status-code error), `none` for status 0. -/
def statusErr (status : Nat) : Option BinErr :=
  if status = 0 then none
  else if status = 1 then some .itemNotFound
  else if status = 2 then some .itemExists
  else if status = 5 then some .itemNotStored
  else if status = 3 ∨ status = 4 ∨ status = 6 ∨ status = 7 ∨ status = 8 ∨ status = 9
      ∨ (129 ≤ status ∧ status ≤ 134) then some (.serverErr status)
  else some (.statusCodeErr status)

/-- A decoded response packet as `packet.read` leaves it: `value`/`extras` are
`none` when the corresponding body slice was empty. -/
structure RespPacket where
  status : Nat
  key : String
  extras : Option (List Nat)
  value : Option String
  cas : Nat
deriving DecidableEq, Repr

/-- Go map assignment `m[k] = v` on an association list: any previous binding
of `k` is replaced. -/
def mapInsert (m : List (String × Item)) (k : String) (v : Item) : List (String × Item) :=
  m.filter (fun p => p.1 != k) ++ [(k, v)]

/-- The `Item` built from a hit in the multi-get response loop: flags decoded
big-endian from the extras when present. -/
def respItem (pkt : RespPacket) : Item :=
  { key := pkt.key, value := pkt.value.getD "", expiration := 0,
    flags := match pkt.extras with | some e => u32beRead e | none => 0,
    cas := pkt.cas }

/-- The response loop of `BinaryProtocol.fetchFromServer`: read a packet; any
error other than item-not-found aborts; an item-not-found for a key other than
the last key is skipped; a packet carrying a value is recorded; the loop stops
once the packet's key is the last key.  Running out of responses models a
blocked/failed read. -/
def BinaryProtocol.fetchLoop (lastKey : String) :
    List RespPacket → List (String × Item) → Except BinErr (List (String × Item))
  | [], _ => .error .transportRead
  | pkt :: rest, results =>
    match statusErr pkt.status with
    | some e =>
      if e = BinErr.itemNotFound then
        if pkt.key = lastKey then
          .ok (if pkt.value.isSome then mapInsert results pkt.key (respItem pkt) else results)
        else BinaryProtocol.fetchLoop lastKey rest results
      else .error e
    | none =>
      let results' := if pkt.value.isSome then mapInsert results pkt.key (respItem pkt) else results
      if pkt.key = lastKey then .ok results'
      else BinaryProtocol.fetchLoop lastKey rest results'

/-- `strconv.ParseUint(s, 10, 64)`: decimal digits only, below `2^64`. -/
def parseUintDec (s : String) : Option Nat :=
  if s.isEmpty then none
  else if s.data.all (fun c => c.isDigit) then
    let n := s.data.foldl (fun acc c => acc * 10 + (c.toNat - 48)) 0
    if n < 18446744073709551616 then some n else none
  else none

/-- `BinaryProtocol.store`, packet-construction part: `cas` is rewritten to
`set`; store-class commands get the 8-byte flags+expiration extras and a body
length covering extras, key and value; `incr`/`decr` parse the item value as
the decimal delta and get the 20-byte delta+initial+expiration extras. -/
def BinaryProtocol.storePacket (cmd : String) (item : Item) : Except BinErr Packet :=
  match operations (if cmd = "cas" then "set" else cmd) with
  | none => .error .opNotSupported
  | some op =>
    let keyLength := item.key.length
    let basePkt : Packet :=
      { header := { magic := 128, opcode := op.opcode, keyLength := keyLength % 65536,
                    extrasLength := 0, dataType := 0, status := 0,
                    bodyLength := keyLength % 4294967296, opq := 0,
                    cas := item.cas % 18446744073709551616 },
        extras := [], key := item.key, value := "" }
    let storePkt : Packet :=
      if isStoreOperation op then
        { basePkt with value := item.value,
                       extras := u32be item.flags ++ u32be item.expiration,
                       header := { basePkt.header with
                                     extrasLength := 8,
                                     bodyLength := (basePkt.header.keyLength
                                       + item.value.length % 4294967296 + 8) % 4294967296 } }
      else basePkt
    if op.command = "incr" ∨ op.command = "decr" then
      match parseUintDec item.value with
      | none => .error .invalidArguments
      | some delta =>
        .ok { storePkt with
                extras := u64be delta ++ u64be 0 ++ u32be item.expiration,
                header := { storePkt.header with
                              extrasLength := 20,
                              bodyLength := (storePkt.header.keyLength + 20) % 4294967296 } }
    else .ok storePkt

/-- The header invariant and wire layout the binary codec is claimed to keep
for every request packet. -/
def packetInvariant (pkt : Packet) : Prop :=
  pkt.header.bodyLength
      = pkt.header.extrasLength + pkt.header.keyLength + (strBytes pkt.value).length
    ∧ pkt.header.extrasLength = pkt.extras.length
    ∧ pkt.header.keyLength = (strBytes pkt.key).length
    ∧ (headerBytes pkt.header).length = 24
    ∧ pktWrite pkt = headerBytes pkt.header ++ pkt.extras ++ strBytes pkt.key ++ strBytes pkt.value

/-- The fan-out merge both `TextProtocol.fetch` and `BinaryProtocol.fetch`
perform over the per-shard task outcomes: a failing shard overwrites the
shared error slot and contributes no items, a succeeding shard merges its
items into the shared result map. -/
def fetchMerge (shardResults : List (Except BinErr (List (String × Item)))) :
    List (String × Item) × Option BinErr :=
  shardResults.foldl
    (fun acc r =>
      match r with
      | .error e => (acc.1, some e)
      | .ok items => (items.foldl (fun m kv => mapInsert m kv.1 kv.2) acc.1, acc.2))
    ([], none)

/-! ## Concrete states used by counterexamples and witnesses -/

/-- A pool whose checked-out count equals `MaxActiveConns` exactly, with no
idle connection. -/
def poolAtMax : Pool :=
  { maxIdleConns := 10, maxActiveConns := 1, idleTimeout := 10, socketTimeout := 1,
    closed := false, idleConns := [], activeConns := 1 }

/-- A pool whose checked-out count is strictly above `MaxActiveConns`. -/
def poolOverMax : Pool :=
  { maxIdleConns := 10, maxActiveConns := 1, idleTimeout := 10, socketTimeout := 1,
    closed := false, idleConns := [], activeConns := 3 }

/-- A pool with one expired and two fresh idle connections (at `now = 55`,
timeout 10). -/
def poolWithIdle : Pool :=
  { maxIdleConns := 10, maxActiveConns := 5, idleTimeout := 10, socketTimeout := 1,
    closed := false,
    idleConns := [{ conn := 1, err := false, idleAt := 0 },
      { conn := 2, err := false, idleAt := 50 }, { conn := 3, err := false, idleAt := 60 }],
    activeConns := 0 }

/-- A sample item held by one fetched shard. -/
def itemK1 : Item :=
  { key := "k1", value := "v1", expiration := 0, flags := 0, cas := 0 }

/-! ## Helper lemmas -/

theorem fetchPackets_eq :
    ∀ (keys : List String) (hne : keys ≠ []),
      BinaryProtocol.fetchPackets keys =
        keys.dropLast.map (mkGetPacket (operationsGet ("getkq")))
          ++ [mkGetPacket (operationsGet ("getk")) (keys.getLast hne)]
  | [], hne => absurd rfl hne
  | [k], _ => by
      simp [BinaryProtocol.fetchPackets, List.getLast]
  | k :: k2 :: t, _ => by
      have ih := fetchPackets_eq (k2 :: t) (List.cons_ne_nil k2 t)
      rw [show BinaryProtocol.fetchPackets (k :: k2 :: t) =
          mkGetPacket (operationsGet ("getkq")) k :: BinaryProtocol.fetchPackets (k2 :: t)
        from rfl, ih, List.getLast_cons (List.cons_ne_nil k2 t)]
      simp

theorem mem_fetchPackets :
    ∀ (keys : List String) (p : Packet), p ∈ BinaryProtocol.fetchPackets keys →
      ∃ key, p = mkGetPacket (operationsGet ("getkq")) key
        ∨ p = mkGetPacket (operationsGet ("getk")) key
  | [], p, hp => absurd hp (List.not_mem_nil p)
  | [k], p, hp => by
      refine ⟨k, Or.inr ?_⟩
      simpa [BinaryProtocol.fetchPackets] using hp
  | k :: k2 :: t, p, hp => by
      rw [show BinaryProtocol.fetchPackets (k :: k2 :: t) =
          mkGetPacket (operationsGet ("getkq")) k :: BinaryProtocol.fetchPackets (k2 :: t)
        from rfl] at hp
      rcases List.mem_cons.mp hp with rfl | hp'
      · exact ⟨k, Or.inl rfl⟩
      · exact mem_fetchPackets (k2 :: t) p hp'

theorem pairwise_rel_getLast {α : Type} {R : α → α → Prop} (hrefl : ∀ a, R a a) :
    ∀ (l : List α) (h : l ≠ []), l.Pairwise R → ∀ x ∈ l, R x (l.getLast h)
  | [], h, _, _, _ => absurd rfl h
  | [a], _, _, x, hx => by
      simp only [List.mem_singleton] at hx
      simpa [hx, List.getLast] using hrefl a
  | a :: b :: t, _, hp, x, hx => by
      rw [List.getLast_cons (List.cons_ne_nil b t)]
      rcases List.mem_cons.mp hx with rfl | hx'
      · exact List.rel_of_pairwise_cons hp
          (List.getLast_mem (List.cons_ne_nil b t))
      · exact pairwise_rel_getLast hrefl (b :: t) (List.cons_ne_nil b t)
          (List.pairwise_cons.mp hp).2 x hx'

theorem mem_takeWhile_le_of_sorted {cutoff : Int} :
    ∀ {l : List IdleConn}, l.Pairwise (fun a b => a.idleAt ≤ b.idleAt) →
      ∀ {x : IdleConn}, x ∈ l → x.idleAt ≤ cutoff →
        x ∈ l.takeWhile (fun ic => decide (ic.idleAt ≤ cutoff))
  | [], _, _, hx, _ => absurd hx (List.not_mem_nil _)
  | a :: t, hp, x, hx, hle => by
      rcases List.mem_cons.mp hx with rfl | hx'
      · rw [List.takeWhile_cons_of_pos (by simpa using hle)]
        exact List.mem_cons_self _ _
      · have ha : a.idleAt ≤ cutoff :=
          le_trans (List.rel_of_pairwise_cons hp hx') hle
        rw [List.takeWhile_cons_of_pos (by simpa using ha)]
        exact List.mem_cons_of_mem a
          (mem_takeWhile_le_of_sorted (List.pairwise_cons.mp hp).2 hx' hle)

theorem dropWhile_first_not {α : Type} (p : α → Bool) (l : List α)
    (hl : 0 < (l.dropWhile p).length) :
    p ((l.dropWhile p).get ⟨0, hl⟩) = false := by
  simpa using List.dropWhile_get_zero_not p l hl

theorem invalidKey_eq_false_iff (key : String) :
    invalidKey key = false ↔ specBadKey key := by
  unfold invalidKey specBadKey
  by_cases hl : key.length > 250
  · simp [hl]
  · simp only [if_neg hl]
    rw [List.all_eq_false]
    simp only [Bool.not_eq_true, Bool.not_eq_false, Bool.or_eq_true, decide_eq_true_eq]
    constructor
    · rintro ⟨c, hc, hcc⟩
      have h2 : 32 < c.toNat → 127 < c.toNat := by simpa using hcc
      exact Or.inr ⟨c, hc, by omega⟩
    · rintro (h | ⟨c, hc, hcc⟩)
      · exact absurd h hl
      · refine ⟨c, hc, ?_⟩
        have h2 : (decide (c.toNat ≤ 32) || decide (127 < c.toNat)) = true := by
          rcases hcc with h | h
          · simp [h]
          · simp [h]
        simp [h2]

theorem multiGetDedup_ok_or_invalid (keys : List String) :
    ∀ ks, (∃ r, multiGetDedup ks keys = .ok r) ∨ multiGetDedup ks keys = .error .invalidKey := by
  induction keys with
  | nil => intro ks; exact Or.inl ⟨ks, rfl⟩
  | cons k rest ih =>
    intro ks
    by_cases hk : k ∈ ks
    · simpa [multiGetDedup, hk] using ih ks
    · cases h : invalidKey k
      · simp [multiGetDedup, hk, h]
      · simpa [multiGetDedup, hk, h] using ih (ks ++ [k])

theorem multiGetDedup_error_iff (keys : List String) :
    ∀ ks, (∀ k ∈ ks, invalidKey k = true) →
      (multiGetDedup ks keys = .error .invalidKey ↔ ∃ k ∈ keys, invalidKey k = false) := by
  induction keys with
  | nil => intro ks _; simp [multiGetDedup]
  | cons k rest ih =>
    intro ks hks
    by_cases hk : k ∈ ks
    · have hkv : invalidKey k = true := hks k hk
      simp only [multiGetDedup, if_pos hk]
      rw [ih ks hks]
      simp [hkv]
    · cases h : invalidKey k
      · simp [multiGetDedup, hk, h]
      · simp only [multiGetDedup, if_neg hk, h, Bool.not_true, Bool.false_eq_true, if_false]
        rw [ih (ks ++ [k]) ?_]
        · simp [h]
        · intro x hx
          rcases List.mem_append.mp hx with hx | hx
          · exact hks x hx
          · rw [List.mem_singleton.mp hx]
            exact h

theorem multiGetDedup_ok_eq_fold (keys : List String) :
    ∀ ks r, (∀ k ∈ ks, invalidKey k = true) → multiGetDedup ks keys = .ok r →
      r = keys.foldl (fun acc k => if k ∈ acc then acc else acc ++ [k]) ks ∧
      (∀ k ∈ r, invalidKey k = true) := by
  induction keys with
  | nil =>
    intro ks r hks h
    simp only [multiGetDedup, Except.ok.injEq] at h
    subst h
    exact ⟨rfl, hks⟩
  | cons k rest ih =>
    intro ks r hks h
    by_cases hk : k ∈ ks
    · have := ih ks r hks (by simpa [multiGetDedup, hk] using h)
      simpa [hk] using this
    · cases hv : invalidKey k
      · simp [multiGetDedup, hk, hv] at h
      · have hks' : ∀ x ∈ ks ++ [k], invalidKey x = true := by
          intro x hx
          rcases List.mem_append.mp hx with hx | hx
          · exact hks x hx
          · rw [List.mem_singleton.mp hx]
            exact hv
        have := ih (ks ++ [k]) r hks' (by simpa [multiGetDedup, hk, hv] using h)
        simpa [hk] using this

theorem fold_dedup_nodup (keys : List String) :
    ∀ acc : List String, acc.Nodup →
      (keys.foldl (fun acc k => if k ∈ acc then acc else acc ++ [k]) acc).Nodup := by
  induction keys with
  | nil => intro acc h; simpa using h
  | cons k rest ih =>
    intro acc h
    by_cases hk : k ∈ acc
    · simpa [hk] using ih acc h
    · have hnd : (acc ++ [k]).Nodup := by
        simp [List.nodup_append, h, hk]
      simpa [hk] using ih _ hnd

theorem fold_dedup_mem (keys : List String) :
    ∀ (acc : List String) (x : String),
      x ∈ keys.foldl (fun acc k => if k ∈ acc then acc else acc ++ [k]) acc ↔
        x ∈ acc ∨ x ∈ keys := by
  induction keys with
  | nil => intro acc x; simp
  | cons k rest ih =>
    intro acc x
    by_cases hk : k ∈ acc
    · rw [List.foldl_cons]
      simp only [if_pos hk]
      rw [ih acc x]
      simp only [List.mem_cons]
      constructor
      · rintro (h | h)
        · exact Or.inl h
        · exact Or.inr (Or.inr h)
      · rintro (h | h | h)
        · exact Or.inl h
        · exact Or.inl (h ▸ hk)
        · exact Or.inr h
    · rw [List.foldl_cons]
      simp only [if_neg hk]
      rw [ih (acc ++ [k]) x]
      simp only [List.mem_append, List.mem_singleton, List.mem_cons]
      tauto

theorem beBytes_length : ∀ (w n : Nat), (beBytes w n).length = w
  | 0, _ => rfl
  | w + 1, n => by
      rw [show beBytes (w + 1) n = beBytes w (n / 256) ++ [n % 256] from rfl]
      simp [beBytes_length w]

theorem headerBytes_length (h : Header) : (headerBytes h).length = 24 := by
  unfold headerBytes u16be u32be u64be
  rw [List.length_append, List.length_append, List.length_append, List.length_append,
    List.length_append, List.length_append, beBytes_length, beBytes_length,
    beBytes_length, beBytes_length, beBytes_length]
  rfl

theorem strBytes_length (s : String) : (strBytes s).length = s.length := by
  unfold strBytes
  rw [List.length_map]
  rfl

theorem getPacket_invariant (op : Operation) (key : String) (hk : key.length < 65536) :
    packetInvariant (mkGetPacket op key) := by
  unfold packetInvariant mkGetPacket pktWrite
  refine ⟨?_, rfl, ?_, headerBytes_length _, rfl⟩
  · simp [strBytes_length, Nat.mod_eq_of_lt hk, Nat.mod_eq_of_lt (show key.length < 4294967296 by omega)]
  · simp [strBytes_length, Nat.mod_eq_of_lt hk]

theorem mapInsert_hasKey (m : List (String × Item)) (k : String) (v : Item) :
    ∃ w, (k, w) ∈ mapInsert m k v :=
  ⟨v, by simp [mapInsert]⟩

theorem mapInsert_preserves (m : List (String × Item)) (k' : String) (v' : Item)
    (k : String) (h : ∃ w, (k, w) ∈ m) : ∃ w, (k, w) ∈ mapInsert m k' v' := by
  by_cases he : k = k'
  · subst he
    exact mapInsert_hasKey m k v'
  · rcases h with ⟨w, hw⟩
    refine ⟨w, ?_⟩
    unfold mapInsert
    refine List.mem_append.mpr (Or.inl ?_)
    rw [List.mem_filter]
    refine ⟨hw, ?_⟩
    simpa using he

theorem foldl_mapInsert_hasKey (items : List (String × Item)) :
    ∀ (m : List (String × Item)) (k : String),
      ((∃ w, (k, w) ∈ m) ∨ (∃ w, (k, w) ∈ items)) →
      ∃ w, (k, w) ∈ items.foldl (fun m kv => mapInsert m kv.1 kv.2) m := by
  induction items with
  | nil =>
    intro m k h
    rcases h with h | ⟨w, hw⟩
    · exact h
    · exact absurd hw (List.not_mem_nil _)
  | cons kv t ih =>
    intro m k h
    rw [List.foldl_cons]
    apply ih
    rcases h with h | ⟨w, hw⟩
    · exact Or.inl (mapInsert_preserves _ _ _ _ h)
    · rcases List.mem_cons.mp hw with heq | hw'
      · have hk : kv.1 = k := by rw [← heq]
        exact Or.inl (hk ▸ mapInsert_hasKey m kv.1 kv.2)
      · exact Or.inr ⟨w, hw'⟩

theorem fetchMerge_foldl_err :
    ∀ (rs : List (Except BinErr (List (String × Item))))
      (acc : List (String × Item) × Option BinErr),
      ((∃ e, Except.error e ∈ rs) ∨ acc.2 ≠ none) →
      (rs.foldl
        (fun acc r =>
          match r with
          | .error e => (acc.1, some e)
          | .ok items => (items.foldl (fun m kv => mapInsert m kv.1 kv.2) acc.1, acc.2))
        acc).2 ≠ none := by
  intro rs
  induction rs with
  | nil =>
    intro acc h
    rcases h with ⟨e, he⟩ | h
    · exact absurd he (List.not_mem_nil _)
    · simpa using h
  | cons r t ih =>
    intro acc h
    rw [List.foldl_cons]
    cases r with
    | error e =>
      apply ih
      right
      simp
    | ok items =>
      apply ih
      rcases h with ⟨e, he⟩ | h
      · rcases List.mem_cons.mp he with heq | he'
        · exact Except.noConfusion heq
        · exact Or.inl ⟨e, he'⟩
      · exact Or.inr (by simpa using h)

theorem fetchMerge_foldl_hasKey :
    ∀ (rs : List (Except BinErr (List (String × Item))))
      (acc : List (String × Item) × Option BinErr) (k : String),
      ((∃ w, (k, w) ∈ acc.1) ∨ ∃ items, Except.ok items ∈ rs ∧ ∃ w, (k, w) ∈ items) →
      ∃ w, (k, w) ∈ (rs.foldl
        (fun acc r =>
          match r with
          | .error e => (acc.1, some e)
          | .ok items => (items.foldl (fun m kv => mapInsert m kv.1 kv.2) acc.1, acc.2))
        acc).1 := by
  intro rs
  induction rs with
  | nil =>
    intro acc k h
    rcases h with h | ⟨items, hmem, _⟩
    · simpa using h
    · exact absurd hmem (List.not_mem_nil _)
  | cons r t ih =>
    intro acc k h
    rw [List.foldl_cons]
    cases r with
    | error e =>
      apply ih
      rcases h with h | ⟨items, hmem, hw⟩
      · exact Or.inl (by simpa using h)
      · rcases List.mem_cons.mp hmem with heq | hm'
        · exact Except.noConfusion heq
        · exact Or.inr ⟨items, hm', hw⟩
    | ok items =>
      apply ih
      rcases h with h | ⟨items2, hmem, hw⟩
      · exact Or.inl (foldl_mapInsert_hasKey items acc.1 k (Or.inl (by simpa using h)))
      · rcases List.mem_cons.mp hmem with heq | hm'
        · have : items2 = items := by
            injection heq
          subst this
          exact Or.inl (foldl_mapInsert_hasKey items2 acc.1 k (Or.inr hw))
        · exact Or.inr ⟨items2, hm', hw⟩

/-! ## Claim theorems -/

/-- C3: `Pool.Put` decrements the active count, closes and discards the
connection iff the pool is closed, the idle list is already at
`MaxIdleConns`, or the connection is tainted; otherwise it timestamps the
connection with the current time and appends it to the end of the idle list,
so a tainted connection is never added to the idle set. -/
theorem pool_put_release_spec (pool : Pool) (ic : IdleConn) (now : Int) :
    (Pool.put pool ic now).1.activeConns = pool.activeConns - 1 ∧
    ((Pool.put pool ic now).2 = true ↔
      (pool.closed = true ∨ pool.maxIdleConns ≤ (pool.idleConns.length : Int) ∨ ic.err = true)) ∧
    ((Pool.put pool ic now).2 = true → (Pool.put pool ic now).1.idleConns = pool.idleConns) ∧
    ((Pool.put pool ic now).2 = false →
      (Pool.put pool ic now).1.idleConns = pool.idleConns ++ [{ ic with idleAt := now }]) ∧
    (ic.err = true → (Pool.put pool ic now).2 = true) := by
  unfold Pool.put
  by_cases h : pool.closed = true ∨ pool.maxIdleConns ≤ (pool.idleConns.length : Int)
      ∨ ic.err = true
  · simp [h]
  · push_neg at h
    have hle : ¬ pool.maxIdleConns ≤ (pool.idleConns.length : Int) := not_le.mpr h.2.1
    simp [h.1, hle, h.2.2]

/-- C1: on a non-closed, non-exhausted pool whose idle list is ordered oldest
to newest, `Pool.Get` closes exactly a prefix of the idle list every member of
which has been idle at least `IdleTimeout` (in particular every entry idle
strictly longer than `IdleTimeout` is closed), stopping at the first
still-fresh entry; if a fresh idle connection remains the one handed out is
the most-recently-idled fresh one and its idle duration is strictly below
`IdleTimeout`, otherwise a new connection is dialed — so a connection idle
longer than `IdleTimeout` is never handed out. -/
theorem pool_get_idle_scan (pool : Pool) (now : Int) (freshConn : Nat)
    (hcl : pool.closed = false)
    (hact : ¬ pool.maxActiveConns < pool.activeConns)
    (hsorted : pool.idleConns.Pairwise (fun a b => a.idleAt ≤ b.idleAt)) :
    ∃ closedConns kept,
      pool.idleConns = closedConns ++ kept ∧
      (∀ ic ∈ closedConns, pool.idleTimeout ≤ now - ic.idleAt) ∧
      (∀ ic ∈ pool.idleConns, pool.idleTimeout < now - ic.idleAt → ic ∈ closedConns) ∧
      (kept = [] →
        Pool.get pool now freshConn =
          .ok ({ pool with idleConns := [], activeConns := pool.activeConns + 1 },
               { conn := freshConn, err := false, idleAt := 0 }, closedConns)) ∧
      (∀ hk : kept ≠ [],
        Pool.get pool now freshConn =
          .ok ({ pool with idleConns := kept.dropLast, activeConns := pool.activeConns + 1 },
               kept.getLast hk, closedConns) ∧
        kept.getLast hk ∈ pool.idleConns ∧
        now - (kept.getLast hk).idleAt < pool.idleTimeout ∧
        (∀ ic ∈ pool.idleConns, now - ic.idleAt < pool.idleTimeout →
          ic.idleAt ≤ (kept.getLast hk).idleAt)) := by
  have hget : Pool.get pool now freshConn =
      (if hk : pool.idleConns.dropWhile
          (fun ic => decide (ic.idleAt ≤ now - pool.idleTimeout)) = [] then
        .ok ({ pool with idleConns := [], activeConns := pool.activeConns + 1 },
          { conn := freshConn, err := false, idleAt := 0 },
          pool.idleConns.takeWhile (fun ic => decide (ic.idleAt ≤ now - pool.idleTimeout)))
      else
        .ok ({ pool with
                idleConns := (pool.idleConns.dropWhile
                  (fun ic => decide (ic.idleAt ≤ now - pool.idleTimeout))).dropLast,
                activeConns := pool.activeConns + 1 },
          (pool.idleConns.dropWhile
            (fun ic => decide (ic.idleAt ≤ now - pool.idleTimeout))).getLast hk,
          pool.idleConns.takeWhile (fun ic => decide (ic.idleAt ≤ now - pool.idleTimeout)))) := by
    unfold Pool.get
    rw [hcl]
    simp only [Bool.false_eq_true, if_false, if_neg hact]
  refine ⟨pool.idleConns.takeWhile (fun ic => decide (ic.idleAt ≤ now - pool.idleTimeout)),
    pool.idleConns.dropWhile (fun ic => decide (ic.idleAt ≤ now - pool.idleTimeout)),
    (List.takeWhile_append_dropWhile _ _).symm, ?_, ?_, ?_, ?_⟩
  · intro ic hic
    have := List.mem_takeWhile_imp hic
    have h2 : ic.idleAt ≤ now - pool.idleTimeout := by simpa using this
    omega
  · intro ic hic hlt
    exact mem_takeWhile_le_of_sorted hsorted hic (by omega)
  · intro hk
    rw [hget, dif_pos hk]
  · intro hk
    have hkeptSorted :
        (pool.idleConns.dropWhile
          (fun ic => decide (ic.idleAt ≤ now - pool.idleTimeout))).Pairwise
          (fun a b => a.idleAt ≤ b.idleAt) :=
      List.Pairwise.sublist (List.dropWhile_sublist _) hsorted
    have hlastMemKept := List.getLast_mem hk
    have hlastMem : (pool.idleConns.dropWhile
        (fun ic => decide (ic.idleAt ≤ now - pool.idleTimeout))).getLast hk
        ∈ pool.idleConns :=
      (List.dropWhile_sublist _).subset hlastMemKept
    have hpos : 0 < (pool.idleConns.dropWhile
        (fun ic => decide (ic.idleAt ≤ now - pool.idleTimeout))).length :=
      List.length_pos.mpr hk
    have hheadFresh := dropWhile_first_not
      (fun ic => decide (ic.idleAt ≤ now - pool.idleTimeout)) pool.idleConns hpos
    have hheadFresh2 : now - pool.idleTimeout
        < ((pool.idleConns.dropWhile
          (fun ic => decide (ic.idleAt ≤ now - pool.idleTimeout))).get ⟨0, hpos⟩).idleAt := by
      have := of_decide_eq_false hheadFresh
      omega
    have hheadLe := @pairwise_rel_getLast IdleConn (fun a b => a.idleAt ≤ b.idleAt)
      (fun a => le_refl a.idleAt)
      (pool.idleConns.dropWhile (fun ic => decide (ic.idleAt ≤ now - pool.idleTimeout)))
      hk hkeptSorted
      ((pool.idleConns.dropWhile
        (fun ic => decide (ic.idleAt ≤ now - pool.idleTimeout))).get ⟨0, hpos⟩)
      (List.get_mem _ 0 hpos)
    refine ⟨by rw [hget, dif_neg hk], hlastMem, by omega, ?_⟩
    intro ic hic hfresh
    have hic' : ic ∈ pool.idleConns.takeWhile
          (fun ic => decide (ic.idleAt ≤ now - pool.idleTimeout))
        ∨ ic ∈ pool.idleConns.dropWhile
          (fun ic => decide (ic.idleAt ≤ now - pool.idleTimeout)) := by
      have := (List.takeWhile_append_dropWhile
        (fun ic => decide (ic.idleAt ≤ now - pool.idleTimeout)) pool.idleConns)
      rw [← this] at hic
      exact List.mem_append.mp hic
    rcases hic' with hic' | hic'
    · have := List.mem_takeWhile_imp hic'
      have h2 : ic.idleAt ≤ now - pool.idleTimeout := by simpa using this
      omega
    · exact @pairwise_rel_getLast IdleConn (fun a b => a.idleAt ≤ b.idleAt)
        (fun a => le_refl a.idleAt) _ hk hkeptSorted ic hic'

/-- C1 witness: a concrete pool where the one expired entry is closed and the
most recently idled fresh connection is handed out. -/
theorem pool_get_idle_scan_witness :
    poolWithIdle.closed = false ∧
    ¬ poolWithIdle.maxActiveConns < poolWithIdle.activeConns ∧
    poolWithIdle.idleConns.Pairwise (fun a b => a.idleAt ≤ b.idleAt) ∧
    (∃ closedConns kept,
      poolWithIdle.idleConns = closedConns ++ kept ∧
      (∀ ic ∈ closedConns, poolWithIdle.idleTimeout ≤ 55 - ic.idleAt) ∧
      (∀ ic ∈ poolWithIdle.idleConns, poolWithIdle.idleTimeout < 55 - ic.idleAt →
        ic ∈ closedConns) ∧
      (kept = [] →
        Pool.get poolWithIdle 55 99 =
          .ok ({ poolWithIdle with
                   idleConns := [],
                   activeConns := poolWithIdle.activeConns + 1 },
               { conn := 99, err := false, idleAt := 0 }, closedConns)) ∧
      (∀ hk : kept ≠ [],
        Pool.get poolWithIdle 55 99 =
          .ok ({ poolWithIdle with
                   idleConns := kept.dropLast,
                   activeConns := poolWithIdle.activeConns + 1 },
               kept.getLast hk, closedConns) ∧
        kept.getLast hk ∈ poolWithIdle.idleConns ∧
        55 - (kept.getLast hk).idleAt < poolWithIdle.idleTimeout ∧
        (∀ ic ∈ poolWithIdle.idleConns, 55 - ic.idleAt < poolWithIdle.idleTimeout →
          ic.idleAt ≤ (kept.getLast hk).idleAt))) :=
  ⟨by decide, by decide, by decide,
    pool_get_idle_scan poolWithIdle 55 99 (by decide) (by decide) (by decide)⟩

/-- C3 witness: releasing a tainted connection decrements the active count,
closes the connection, and leaves the idle list unchanged. -/
theorem pool_put_release_spec_witness :
    (Pool.put poolAtMax { conn := 7, err := true, idleAt := 0 } 5).1.activeConns
      = poolAtMax.activeConns - 1 ∧
    (Pool.put poolAtMax { conn := 7, err := true, idleAt := 0 } 5).2 = true ∧
    (Pool.put poolAtMax { conn := 7, err := true, idleAt := 0 } 5).1.idleConns
      = poolAtMax.idleConns := by
  have h := pool_put_release_spec poolAtMax { conn := 7, err := true, idleAt := 0 } 5
  have hd := h.2.2.2.2 rfl
  exact ⟨h.1, hd, h.2.2.1 hd⟩

/-- C2 counterexample: on a non-closed pool with no idle connection and
`activeConns` equal to `MaxActiveConns` (so "at least" holds), `Pool.Get`
dials a new connection and succeeds instead of failing with PoolExhausted. -/
theorem pool_get_at_max_dials :
    Pool.get poolAtMax 5 99 =
      .ok ({ poolAtMax with activeConns := 2 }, { conn := 99, err := false, idleAt := 0 }, []) ∧
    Pool.get poolAtMax 5 99 ≠ .error .poolExhausted := by
  refine ⟨rfl, fun h => ?_⟩
  rw [show Pool.get poolAtMax 5 99 =
    .ok ({ poolAtMax with activeConns := 2 },
      { conn := 99, err := false, idleAt := 0 }, []) from rfl] at h
  exact Except.noConfusion h

/-- C2 amended: on a non-closed pool, `Pool.Get` fails with PoolExhausted if
and only if the number of checked-out connections is strictly greater than
`MaxActiveConns`; the check happens before the idle scan and no connection is
dialed in that case. -/
theorem pool_get_exhausted_iff (pool : Pool) (now : Int) (freshConn : Nat)
    (h : pool.closed = false) :
    Pool.get pool now freshConn = .error .poolExhausted ↔
      pool.maxActiveConns < pool.activeConns := by
  unfold Pool.get
  rw [h]
  simp only [Bool.false_eq_true, if_false]
  by_cases hx : pool.maxActiveConns < pool.activeConns
  · rw [if_pos hx]
    simp [hx]
  · rw [if_neg hx]
    constructor
    · intro hc
      split at hc <;> exact Except.noConfusion hc
    · intro hc
      exact absurd hc hx

/-- C2 witness for the amended theorem: a concrete over-committed pool. -/
theorem pool_get_exhausted_iff_witness :
    poolOverMax.closed = false ∧
    (Pool.get poolOverMax 5 99 = .error .poolExhausted ↔
      poolOverMax.maxActiveConns < poolOverMax.activeConns) :=
  ⟨by decide, pool_get_exhausted_iff poolOverMax 5 99 (by decide)⟩

/-- C4: every facade operation fails with InvalidKey, before any dispatch to
the network layer, exactly when the key is longer than 250 bytes or has a byte
at most 0x20 or above 0x7f; a key within those bounds passes validation and
the operation is dispatched. -/
theorem client_key_validation (c : Client) (item : Item) (key : String) (keys : List String) :
    (invalidKey key = false ↔ specBadKey key) ∧
    (Client.set c item = .error .invalidKey ↔ specBadKey item.key) ∧
    (Client.add c item = .error .invalidKey ↔ specBadKey item.key) ∧
    (Client.replace c item = .error .invalidKey ↔ specBadKey item.key) ∧
    (Client.cas c item = .error .invalidKey ↔ specBadKey item.key) ∧
    (Client.get c key = .error .invalidKey ↔ specBadKey key) ∧
    (Client.gets c key = .error .invalidKey ↔ specBadKey key) ∧
    (Client.delete c key = .error .invalidKey ↔ specBadKey key) ∧
    (¬ specBadKey key → Client.get c key = .ok (.fetch [key] false)) ∧
    (¬ specBadKey item.key →
      Client.set c item = .ok (.store (if c.noreply then "setq" else "set") item)) ∧
    (Client.multiGet c keys = .error .invalidKey ↔ ∃ k ∈ keys, specBadKey k) ∧
    ((∀ k ∈ keys, ¬ specBadKey k) → ∃ d, Client.multiGet c keys = .ok d) := by
  have hvalid : ∀ k : String, invalidKey k = true ↔ ¬ specBadKey k := by
    intro k
    rw [← invalidKey_eq_false_iff]
    cases h : invalidKey k <;> simp [h]
  refine ⟨invalidKey_eq_false_iff key, ?_, ?_, ?_, ?_, ?_, ?_, ?_, ?_, ?_, ?_, ?_⟩
  · rw [← invalidKey_eq_false_iff]
    cases h : invalidKey item.key <;> simp [Client.set, h]
  · rw [← invalidKey_eq_false_iff]
    cases h : invalidKey item.key <;> simp [Client.add, h]
  · rw [← invalidKey_eq_false_iff]
    cases h : invalidKey item.key <;> simp [Client.replace, h]
  · rw [← invalidKey_eq_false_iff]
    cases h : invalidKey item.key <;> simp [Client.cas, h]
  · rw [← invalidKey_eq_false_iff]
    cases h : invalidKey key <;> simp [Client.get, h]
  · rw [← invalidKey_eq_false_iff]
    cases h : invalidKey key <;> simp [Client.gets, h]
  · rw [← invalidKey_eq_false_iff]
    cases h : invalidKey key <;> simp [Client.delete, h]
  · intro hnb
    simp [Client.get, (hvalid key).mpr hnb]
  · intro hnb
    simp [Client.set, (hvalid item.key).mpr hnb]
  · rw [show (∃ k ∈ keys, specBadKey k) ↔ ∃ k ∈ keys, invalidKey k = false by
      constructor
      · rintro ⟨k, hk, hb⟩
        exact ⟨k, hk, (invalidKey_eq_false_iff k).mpr hb⟩
      · rintro ⟨k, hk, hb⟩
        exact ⟨k, hk, (invalidKey_eq_false_iff k).mp hb⟩]
    rw [← multiGetDedup_error_iff keys [] (by simp)]
    constructor
    · intro hc
      rcases multiGetDedup_ok_or_invalid keys [] with ⟨r, hr⟩ | herr
      · have hmg : Client.multiGet c keys =
            if r.length = 0 then .ok .noFetch else .ok (.fetch r false) := by
          unfold Client.multiGet
          rw [hr]
        rw [hmg] at hc
        by_cases hz : r.length = 0
        · rw [if_pos hz] at hc
          exact Except.noConfusion hc
        · rw [if_neg hz] at hc
          exact Except.noConfusion hc
      · exact herr
    · intro herr
      unfold Client.multiGet
      rw [herr]
  · intro hall
    rcases multiGetDedup_ok_or_invalid keys [] with ⟨r, hr⟩ | herr
    · unfold Client.multiGet
      rw [hr]
      by_cases hz : r.length = 0
      · exact ⟨.noFetch, by simp [hz]⟩
      · exact ⟨.fetch r false, by simp [hz]⟩
    · rcases (multiGetDedup_error_iff keys [] (by simp)).mp herr with ⟨k, hk, hbad⟩
      exact absurd ((invalidKey_eq_false_iff k).mp hbad) (hall k hk)

/-- C4 witness: a key containing a space fails every lookup path with
InvalidKey, and a clean key passes. -/
theorem client_key_validation_witness :
    (invalidKey ("bad key") = false ↔ specBadKey ("bad key")) ∧
    Client.get newClient ("bad key") = .error .invalidKey ∧
    Client.get newClient ("good") = .ok (.fetch ["good"] false) := by
  have h := client_key_validation newClient itemK1 ("bad key") ["k"]
  have h2 := client_key_validation newClient itemK1 ("good") ["k"]
  refine ⟨h.1, ?_, ?_⟩
  · exact (h.2.2.2.2.2.1).mpr (h.1.mp (by decide))
  · refine h2.2.2.2.2.2.2.2.2.1 (fun hb => ?_)
    have hf := h2.1.mpr hb
    rw [show invalidKey ("good") = true from by decide] at hf
    exact Bool.noConfusion hf

/-- C9: a successful `MultiGet` de-duplication yields exactly the
first-occurrence-wins de-duplication of the key list — duplicate-free, with
the same members — and an empty key list makes `MultiGet` return successfully
with no fetch dispatched. -/
theorem multiget_dedup_spec (c : Client) (keys ks : List String)
    (h : multiGetDedup [] keys = .ok ks) :
    ks = specDedupFirstOccurrence keys ∧
    ks.Nodup ∧
    (∀ k, k ∈ ks ↔ k ∈ keys) ∧
    (Client.multiGet c keys =
      if ks.length = 0 then .ok .noFetch else .ok (.fetch ks false)) ∧
    (keys = [] → Client.multiGet c keys = .ok .noFetch) := by
  have hfold := multiGetDedup_ok_eq_fold keys [] ks (by simp) h
  have heq : ks = specDedupFirstOccurrence keys := hfold.1
  refine ⟨heq, ?_, ?_, ?_, ?_⟩
  · rw [heq]
    exact fold_dedup_nodup keys [] List.nodup_nil
  · intro k
    rw [heq]
    unfold specDedupFirstOccurrence
    rw [fold_dedup_mem keys [] k]
    simp
  · unfold Client.multiGet
    rw [h]
  · intro hkeys
    subst hkeys
    simp only [multiGetDedup, Except.ok.injEq] at h
    unfold Client.multiGet
    simp [multiGetDedup]

/-- C9 witness: the spec's own example, `[k, k, k2]`. -/
theorem multiget_dedup_spec_witness :
    multiGetDedup [] ["k", "k", "k2"] = .ok (["k", "k2"]) ∧
    (["k", "k2"] : List String) = specDedupFirstOccurrence ["k", "k", "k2"] ∧
    (["k", "k2"] : List String).Nodup ∧
    (∀ k, k ∈ (["k", "k2"] : List String) ↔ k ∈ (["k", "k", "k2"] : List String)) ∧
    (Client.multiGet newClient ["k", "k", "k2"] =
      if (["k", "k2"] : List String).length = 0 then .ok .noFetch
      else .ok (.fetch ["k", "k2"] false)) ∧
    ((["k", "k", "k2"] : List String) = [] →
      Client.multiGet newClient ["k", "k", "k2"] = .ok .noFetch) := by
  have h : multiGetDedup [] ["k", "k", "k2"] = .ok (["k", "k2"]) := rfl
  have := multiget_dedup_spec newClient ["k", "k", "k2"] ["k", "k2"] h
  exact ⟨h, this.1, this.2.1, this.2.2.1, this.2.2.2.1, this.2.2.2.2⟩

/-- C5: for an increment in the text codec, the line written to the wire is
the command, the key, and the decimal rendering of the LENGTH of the item's
value followed by a stray space — not the value bytes as the ASCII delta the
claim describes (value "5" yields delta field "1"). -/
theorem text_incr_request_sends_length :
    TextProtocol.storeRequest ("increment")
        { key := "counter", value := "5", expiration := 0, flags := 0, cas := 0 }
      = some ("incr counter 1 \r\n") ∧
    ("incr counter 1 \r\n" : String) ≠ ("incr counter 5\r\n" : String) :=
  ⟨rfl, by decide⟩

/-- C10: a fresh client has noreply enabled and the text protocol active; Set
then dispatches "setq" and Delete dispatches "deleteq", both quiet in the
operation table, and the text codec returns success for them whatever status
lines the server would have sent — so NOT_STORED / NOT_FOUND outcomes are
never reported (though the codec would report them for the non-quiet
variants). -/
theorem default_client_noreply_quiet (item : Item) (key : String) (responses : List String)
    (hk : invalidKey item.key = true) (hk2 : invalidKey key = true) :
    newClient.noreply = true ∧
    newClient.protocol = "text" ∧
    Client.set newClient item = .ok (.store ("setq") item) ∧
    Client.delete newClient key =
      .ok (.store ("deleteq")
        { key := key, value := "", expiration := 0, flags := 0, cas := 0 }) ∧
    (operationsGet ("setq")).quiet = true ∧
    (operationsGet ("deleteq")).quiet = true ∧
    TextProtocol.store ("setq") item responses = .ok () ∧
    TextProtocol.store ("deleteq") item responses = .ok () ∧
    TextProtocol.checkError ("NOT_STORED\r\n") = .error .itemNotStored ∧
    TextProtocol.checkError ("NOT_FOUND\r\n") = .error .itemNotFound := by
  refine ⟨rfl, rfl, ?_, ?_, rfl, rfl, rfl, rfl, rfl, rfl⟩
  · simp [Client.set, hk, newClient]
  · simp [Client.delete, hk2, newClient]

/-- C10 witness: a concrete item and key, with a NOT_STORED response pending
that the quiet path never reads. -/
theorem default_client_noreply_quiet_witness :
    invalidKey ("k") = true ∧
    (newClient.noreply = true ∧
      newClient.protocol = "text" ∧
      Client.set newClient itemK1 = .ok (.store ("setq") itemK1) ∧
      Client.delete newClient ("k") =
        .ok (.store ("deleteq")
          { key := "k", value := "", expiration := 0, flags := 0, cas := 0 }) ∧
      (operationsGet ("setq")).quiet = true ∧
      (operationsGet ("deleteq")).quiet = true ∧
      TextProtocol.store ("setq") itemK1 ["NOT_STORED\r\n"] = .ok () ∧
      TextProtocol.store ("deleteq") itemK1 ["NOT_STORED\r\n"] = .ok () ∧
      TextProtocol.checkError ("NOT_STORED\r\n") = .error .itemNotStored ∧
      TextProtocol.checkError ("NOT_FOUND\r\n") = .error .itemNotFound) :=
  ⟨by decide,
    default_client_noreply_quiet itemK1 ("k") ["NOT_STORED\r\n"] (by decide) (by decide)⟩

/-- C6: for a non-empty key list the binary multi-get emits one getkq packet
(opcode 0x0d) per key in key order except the last, which becomes a getk
packet (opcode 0x0c); in the response loop an item-not-found for a key other
than the last key is skipped, a value-carrying packet is recorded as an Item,
and the loop returns its results exactly when the packet carrying the last key
(hit or miss) is processed. -/
theorem binary_multiget_pipeline (keys : List String) (hne : keys ≠ [])
    (lastKey : String) (pkt : RespPacket) (rest : List RespPacket)
    (results : List (String × Item)) :
    BinaryProtocol.fetchPackets keys =
      keys.dropLast.map (mkGetPacket (operationsGet ("getkq")))
        ++ [mkGetPacket (operationsGet ("getk")) (keys.getLast hne)] ∧
    (operationsGet ("getkq")).opcode = 0x0d ∧
    (operationsGet ("getk")).opcode = 0x0c ∧
    (statusErr pkt.status = some BinErr.itemNotFound → pkt.key ≠ lastKey →
      BinaryProtocol.fetchLoop lastKey (pkt :: rest) results =
        BinaryProtocol.fetchLoop lastKey rest results) ∧
    (statusErr pkt.status = none → pkt.key ≠ lastKey →
      BinaryProtocol.fetchLoop lastKey (pkt :: rest) results =
        BinaryProtocol.fetchLoop lastKey rest
          (if pkt.value.isSome then mapInsert results pkt.key (respItem pkt) else results)) ∧
    (pkt.key = lastKey →
      (statusErr pkt.status = none ∨ statusErr pkt.status = some BinErr.itemNotFound) →
      BinaryProtocol.fetchLoop lastKey (pkt :: rest) results =
        .ok (if pkt.value.isSome then mapInsert results pkt.key (respItem pkt)
             else results)) := by
  refine ⟨fetchPackets_eq keys hne, rfl, rfl, ?_, ?_, ?_⟩
  · intro h1 h2
    simp [BinaryProtocol.fetchLoop, h1, h2]
  · intro h1 h2
    simp [BinaryProtocol.fetchLoop, h1, h2]
  · intro hkey hst
    rcases hst with hst | hst
    · simp [BinaryProtocol.fetchLoop, hst, hkey]
    · simp [BinaryProtocol.fetchLoop, hst, hkey]

/-- C6 witness: two keys produce a getkq packet then a getk packet, and a
not-found response for the non-last key is skipped by the loop. -/
theorem binary_multiget_pipeline_witness :
    (["a", "b"] : List String) ≠ [] ∧
    BinaryProtocol.fetchPackets ["a", "b"] =
      [mkGetPacket (operationsGet ("getkq")) ("a"),
        mkGetPacket (operationsGet ("getk")) ("b")] ∧
    (operationsGet ("getkq")).opcode = 0x0d ∧
    (operationsGet ("getk")).opcode = 0x0c ∧
    BinaryProtocol.fetchLoop ("b")
        [{ status := 1, key := "a", extras := none, value := none, cas := 0 }] [] =
      BinaryProtocol.fetchLoop ("b") [] [] := by
  have h := binary_multiget_pipeline ["a", "b"] (by simp) ("b")
    { status := 1, key := "a", extras := none, value := none, cas := 0 } [] []
  exact ⟨by simp, h.1, h.2.1, h.2.2.1,
    h.2.2.2.1 (by decide) (by decide)⟩

/-- C7: every request packet the binary codec constructs — store-class
(including cas, rewritten to set), incr/decr, and the getk/getkq packets of
the multi-get — satisfies `body_length = extras_length + key_length +
value_length`, its header length fields equal the actual extras and key byte
counts, and the bytes written are the 24-byte big-endian header followed by
the extras, the key and the value, in that order. -/
theorem binary_packet_header_invariant (cmd : String) (item : Item) (pkt : Packet)
    (keys : List String) (p2 : Packet)
    (hk : item.key.length < 65536)
    (hv : 8 + item.key.length + item.value.length < 4294967296)
    (hok : BinaryProtocol.storePacket cmd item = .ok pkt)
    (hmem : p2 ∈ BinaryProtocol.fetchPackets keys)
    (hk2 : p2.key.length < 65536) :
    packetInvariant pkt ∧ packetInvariant p2 := by
  constructor
  · unfold BinaryProtocol.storePacket at hok
    cases hop : operations (if cmd = "cas" then "set" else cmd) with
    | none =>
      rw [hop] at hok
      exact Except.noConfusion hok
    | some op =>
      simp only [hop] at hok
      by_cases hi : op.command = "incr" ∨ op.command = "decr"
      · rw [if_pos hi] at hok
        cases hdelta : parseUintDec item.value with
        | none =>
          rw [hdelta] at hok
          exact Except.noConfusion hok
        | some delta =>
          rw [hdelta] at hok
          by_cases hs : isStoreOperation op = true
          · exfalso
            unfold isStoreOperation at hs
            rcases hi with h | h <;> simp [h] at hs
          · rw [if_neg hs] at hok
            injection hok with hok
            subst hok
            unfold packetInvariant
            refine ⟨?_, ?_, ?_, headerBytes_length _, rfl⟩
            · simp only [strBytes_length]
              show (item.key.length % 65536 + 20) % 4294967296
                = 20 + item.key.length % 65536 + ("" : String).length
              have hz : ("" : String).length = 0 := rfl
              omega
            · show (20 : Nat) = (u64be delta ++ u64be 0 ++ u32be item.expiration).length
              simp [u64be, u32be, beBytes_length]
            · simp only [strBytes_length]
              show item.key.length % 65536 = item.key.length
              omega
      · rw [if_neg hi] at hok
        by_cases hs : isStoreOperation op = true
        · rw [if_pos hs] at hok
          injection hok with hok
          subst hok
          unfold packetInvariant
          refine ⟨?_, ?_, ?_, headerBytes_length _, rfl⟩
          · simp only [strBytes_length]
            show (item.key.length % 65536 + item.value.length % 4294967296 + 8) % 4294967296
              = 8 + item.key.length % 65536 + item.value.length
            omega
          · show (8 : Nat) = (u32be item.flags ++ u32be item.expiration).length
            simp [u32be, beBytes_length]
          · simp only [strBytes_length]
            show item.key.length % 65536 = item.key.length
            omega
        · rw [if_neg hs] at hok
          injection hok with hok
          subst hok
          unfold packetInvariant
          refine ⟨?_, rfl, ?_, headerBytes_length _, rfl⟩
          · simp only [strBytes_length]
            show item.key.length % 4294967296 = 0 + item.key.length % 65536 + ("" : String).length
            have hz : ("" : String).length = 0 := rfl
            omega
          · simp only [strBytes_length]
            show item.key.length % 65536 = item.key.length
            omega
  · rcases mem_fetchPackets keys p2 hmem with ⟨key, h | h⟩ <;>
      (subst h; exact getPacket_invariant _ _ hk2)

/-- C7 witness: a concrete set packet and a concrete getk packet. -/
theorem binary_packet_header_invariant_witness :
    itemK1.key.length < 65536 ∧
    8 + itemK1.key.length + itemK1.value.length < 4294967296 ∧
    BinaryProtocol.storePacket ("set") itemK1 = .ok
      { header := { magic := 128, opcode := 1, keyLength := 2, extrasLength := 8,
                    dataType := 0, status := 0, bodyLength := 12, opq := 0, cas := 0 },
        extras := [0, 0, 0, 0, 0, 0, 0, 0], key := "k1", value := "v1" } ∧
    mkGetPacket (operationsGet ("getk")) ("a") ∈ BinaryProtocol.fetchPackets ["a"] ∧
    (mkGetPacket (operationsGet ("getk")) ("a")).key.length < 65536 ∧
    packetInvariant
      { header := { magic := 128, opcode := 1, keyLength := 2, extrasLength := 8,
                    dataType := 0, status := 0, bodyLength := 12, opq := 0, cas := 0 },
        extras := [0, 0, 0, 0, 0, 0, 0, 0], key := "k1", value := "v1" } ∧
    packetInvariant (mkGetPacket (operationsGet ("getk")) ("a")) := by
  have h := binary_packet_header_invariant ("set") itemK1
    { header := { magic := 128, opcode := 1, keyLength := 2, extrasLength := 8,
                  dataType := 0, status := 0, bodyLength := 12, opq := 0, cas := 0 },
      extras := [0, 0, 0, 0, 0, 0, 0, 0], key := "k1", value := "v1" }
    ["a"] (mkGetPacket (operationsGet ("getk")) ("a"))
    (by decide) (by decide) rfl (by simp [BinaryProtocol.fetchPackets]) (by decide)
  exact ⟨by decide, by decide, rfl, by simp [BinaryProtocol.fetchPackets], by decide, h.1, h.2⟩

/-- C8 counterexample: with one shard succeeding with an item and another
failing, the merged fetch result carries the error AND still contains the
successful shard's item — the returned value is not emptied of partial
results. -/
theorem fetch_merge_partial_surfaced :
    fetchMerge [Except.ok [("k1", itemK1)], Except.error BinErr.transportRead] =
      ([("k1", itemK1)], some BinErr.transportRead) ∧
    ([("k1", itemK1)] : List (String × Item)) ≠ [] := by
  refine ⟨rfl, ?_⟩
  intro h
  exact List.noConfusion h

/-- C8 amended: if any shard's task fails the aggregate fetch returns a
non-nil error, but the items obtained by the shards that succeeded remain in
the returned value (every key fetched by a successful shard is present)
rather than being discarded. -/
theorem fetch_merge_error_and_partials
    (rs : List (Except BinErr (List (String × Item))))
    (e : BinErr) (items : List (String × Item)) (kv : String × Item)
    (he : Except.error e ∈ rs) (hi : Except.ok items ∈ rs) (hkv : kv ∈ items) :
    (fetchMerge rs).2 ≠ none ∧ ∃ w, (kv.1, w) ∈ (fetchMerge rs).1 := by
  unfold fetchMerge
  constructor
  · exact fetchMerge_foldl_err rs ([], none) (Or.inl ⟨e, he⟩)
  · refine fetchMerge_foldl_hasKey rs ([], none) kv.1 (Or.inr ⟨items, hi, ⟨kv.2, ?_⟩⟩)
    simpa using hkv

/-- C8 witness for the amended theorem: the same two-shard outcome as the
counterexample. -/
theorem fetch_merge_error_and_partials_witness :
    (Except.error BinErr.transportRead ∈
      [Except.ok [("k1", itemK1)], Except.error BinErr.transportRead]) ∧
    (Except.ok [("k1", itemK1)] ∈
      [Except.ok [("k1", itemK1)], Except.error BinErr.transportRead]) ∧
    (("k1", itemK1) ∈ [("k1", itemK1)]) ∧
    ((fetchMerge [Except.ok [("k1", itemK1)], Except.error BinErr.transportRead]).2 ≠ none ∧
      ∃ w, ("k1", w) ∈
        (fetchMerge [Except.ok [("k1", itemK1)], Except.error BinErr.transportRead]).1) := by
  refine ⟨?_, ?_, ?_, fetch_merge_error_and_partials _ BinErr.transportRead
    [("k1", itemK1)] ("k1", itemK1) ?_ ?_ ?_⟩
  · exact List.mem_cons_of_mem _ (List.mem_cons_self _ _)
  · exact List.mem_cons_self _ _
  · exact List.mem_cons_self _ _
  · exact List.mem_cons_of_mem _ (List.mem_cons_self _ _)
  · exact List.mem_cons_self _ _
  · exact List.mem_cons_self _ _

end Gomemcache
